import Mathlib

/-!
Shallow embedding of the document structure inference engine (app.py).

Strings are modelled as lists of characters (ASCII fragment); numeric
quantities (font sizes, coordinates, scores) are modelled as rationals,
with the constants 0.2, 0.5, 0.6 and 1e-6 read exactly.  Regular
expression tests from the source are translated into decidable scanning
functions over character lists; the dot of a Python regex matches every
character except a newline, and word characters are alphanumerics and
the underscore.
-/

/-! ## Character classes and basic string utilities -/

/-- Whitespace characters recognised by the Python patterns and strip. -/
def isSpaceC (c : Char) : Bool :=
  c == ' ' || c == '\t' || c == '\n' || c == '\r' || c == '\x0b' || c == '\x0c'

/-- Word characters of the regex class backslash-w (ASCII fragment). -/
def isWordChar (c : Char) : Bool :=
  c.isAlphanum || c == '_'

/-- Lower-case a character list (models str.lower on ASCII). -/
def lowerStr (s : List Char) : List Char :=
  s.map Char.toLower

/-- Split a character list at every character satisfying p, keeping empty
chunks, as Python re-based splitting would. -/
def splitP (p : Char → Bool) : List Char → List (List Char)
  | [] => [[]]
  | c :: cs =>
    let r := splitP p cs
    if p c then [] :: r
    else (c :: r.headD []) :: r.tail

/-- Python str.strip: drop whitespace from both ends. -/
def pyStrip (s : List Char) : List Char :=
  ((s.dropWhile isSpaceC).reverse.dropWhile isSpaceC).reverse

/-- Python str.split with no argument: maximal non-whitespace runs. -/
def pyWords (s : List Char) : List (List Char) :=
  (splitP isSpaceC s).filter (fun w => !w.isEmpty)

/-- Number of whitespace-delimited words, len(text.split()). -/
def pyWordCount (s : List Char) : Nat :=
  (pyWords s).length

/-- Python str.isupper on the ASCII fragment: at least one cased character
and no lower-case character. -/
def pyIsUpper (s : List Char) : Bool :=
  s.any Char.isAlpha && s.all (fun c => !c.isLower)

/-! ## Blocklist (is_blocked, app.py lines 17-30) -/

/-- Letters of lowercase roman numerals. -/
def romanChars : List Char := ['i', 'v', 'x', 'l', 'c', 'd', 'm']

/-- Literal section words matched case-insensitively by the blocklist. -/
def sectionWords : List (List Char) :=
  ["table of contents", "appendix", "index", "references", "bibliography"].map String.data

/-- Keywords whose presence at the start of a line (up to a word boundary)
blocks it. -/
def startKeywords : List (List Char) :=
  ["chapter", "section", "fig", "figure", "table"].map String.data

/-- Test for a case-insensitive keyword at the start of the text followed by
a word boundary. -/
def startsWordCI (w : List Char) (s : List Char) : Bool :=
  w.isPrefixOf (lowerStr s) &&
    (match s.drop w.length with
     | [] => true
     | c :: _ => !isWordChar c)

/-- Month-name prefixes of the ordinal date pattern. -/
def monthPrefixes : List (List Char) :=
  ["jan", "feb", "mar", "apr", "may", "jun", "jul", "aug", "sep", "oct", "nov", "dec"].map
    String.data

/-- After the month prefix: a maximal run of letters must end at a word
boundary. -/
def monthTail (u : List Char) : Bool :=
  match u.dropWhile Char.isAlpha with
  | [] => true
  | c :: _ => !isWordChar c

/-- A month name starting here (on lowered text). -/
def monthHere (u : List Char) : Bool :=
  monthPrefixes.any (fun m => m.isPrefixOf u && monthTail (u.drop m.length))

/-- Skip further whitespace, then require a month name. -/
def monthAfterSpaces : List Char → Bool
  | [] => false
  | c :: rest => if isSpaceC c then monthAfterSpaces rest else monthHere (c :: rest)

/-- At least one whitespace character, then a month name. -/
def spacesThenMonth : List Char → Bool
  | [] => false
  | c :: rest => isSpaceC c && monthAfterSpaces rest

/-- Optional ordinal suffix (st/nd/rd/th), then whitespace and a month. -/
def afterDayDigits (u : List Char) : Bool :=
  spacesThenMonth u ||
    (["st", "nd", "rd", "th"].map String.data).any
      (fun o => o.isPrefixOf u && spacesThenMonth (u.drop 2))

/-- Ordinal date pattern anchored at the start: one or two digits, optional
ordinal suffix, whitespace, month name. -/
def ordinalDate (s : List Char) : Bool :=
  match lowerStr s with
  | [] => false
  | c1 :: rest =>
    c1.isDigit &&
      (afterDayDigits rest ||
        (match rest with
         | [] => false
         | c2 :: rest2 => c2.isDigit && afterDayDigits rest2))

/-- Weekday pattern anchored at the start: the line begins with a weekday
prefix (case-insensitively). -/
def weekdayStart (s : List Char) : Bool :=
  (["mon", "tue", "wed", "thu", "fri", "sat", "sun"].map String.data).any
    (fun w => w.isPrefixOf (lowerStr s))

/-- One or two digits. -/
def digits1to2 (x : List Char) : Bool :=
  x.all Char.isDigit && decide (1 ≤ x.length ∧ x.length ≤ 2)

/-- Slash date pattern: d{1,2}/d{1,2}/d{2,4} over the whole text. -/
def slashDate (s : List Char) : Bool :=
  match splitP (fun c => c == '/') s with
  | [a, b, c] =>
    digits1to2 a && digits1to2 b &&
      (c.all Char.isDigit && decide (2 ≤ c.length ∧ c.length ≤ 4))
  | _ => false

/-- ISO date pattern: d{4}-d{2}-d{2} over the whole text. -/
def isoDate (s : List Char) : Bool :=
  match splitP (fun c => c == '-') s with
  | [a, b, c] =>
    a.all Char.isDigit && decide (a.length = 4) &&
      b.all Char.isDigit && decide (b.length = 2) &&
      c.all Char.isDigit && decide (c.length = 2)
  | _ => false

/-- Disjunction of the compiled blocklist patterns, applied to the stripped
text. -/
def blockedPatterns (s : List Char) : Bool :=
  (!s.isEmpty && s.all Char.isDigit) ||
  (!s.isEmpty && s.all (fun c => romanChars.contains c.toLower)) ||
  (decide (s.length = 1) && s.all Char.isAlpha) ||
  sectionWords.contains (lowerStr s) ||
  s.all isSpaceC ||
  (!s.isEmpty && s.all (fun c => !c.isAlphanum)) ||
  startKeywords.any (fun w => startsWordCI w s) ||
  ordinalDate s || weekdayStart s || slashDate s || isoDate s

/-- is_blocked from app.py: strip, then empty or any blocklist pattern. -/
def is_blocked (t : List Char) : Bool :=
  let s := pyStrip t
  s.isEmpty || blockedPatterns s

/-! ## Paragraph classifier (is_paragraph, app.py lines 37-46) -/

/-- First paragraph indicator: upper-case letter, lower-case letter, any
non-newline characters, terminal punctuation at the end. -/
def paraCapPunct (s : List Char) : Bool :=
  match s with
  | c1 :: c2 :: rest =>
    c1.isUpper && c2.isLower && !rest.isEmpty &&
      ['.', '!', '?'].contains (rest.getLastD ' ') &&
      rest.dropLast.all (fun c => c != '\n')
  | _ => false

/-- Second paragraph indicator: a maximal word-character run of length at
least 3 consisting only of lower-case letters. -/
def paraLowerWord (s : List Char) : Bool :=
  (splitP (fun c => !isWordChar c) s).any
    (fun r => decide (3 ≤ r.length) && r.all Char.isLower)

/-- Third paragraph indicator: a comma, one whitespace character, then a
lower-case letter. -/
def paraCommaLower : List Char → Bool
  | a :: b :: c :: rest =>
    (a == ',' && isSpaceC b && c.isLower) || paraCommaLower (b :: c :: rest)
  | _ => false

/-- The function words of the fourth paragraph indicator. -/
def funcWords : List (List Char) :=
  ["and", "the", "of", "in", "to"].map String.data

/-- Fourth paragraph indicator: a function word bounded by word boundaries,
hence a maximal word-character run equal to a function word. -/
def paraFuncWord (s : List Char) : Bool :=
  (splitP (fun c => !isWordChar c) s).any (fun r => funcWords.contains r)

/-- Fifth paragraph indicator: a run of at least 50 consecutive non-newline
characters. -/
def paraLong (s : List Char) : Bool :=
  (splitP (fun c => c == '\n') s).any (fun r => decide (50 ≤ r.length))

/-- Number of satisfied paragraph indicators. -/
def paraCount (s : List Char) : Nat :=
  [paraCapPunct s, paraLowerWord s, paraCommaLower s, paraFuncWord s, paraLong s].count true

/-- is_paragraph from app.py: at least 8 words and at least 3 of the 5
indicators. -/
def is_paragraph (t : List Char) : Bool :=
  let s := pyStrip t
  if s.isEmpty || decide (pyWordCount s < 8) then false
  else decide (3 ≤ paraCount s)

/-! ## Heading-likeness classifier (is_heading_like, app.py lines 48-63) -/

/-- A capitalized word: one upper-case letter then lower-case letters. -/
def capWord (w : List Char) : Bool :=
  match w with
  | [] => false
  | c :: rest => c.isUpper && rest.all Char.isLower

/-- First heading indicator: every whitespace-delimited word capitalized. -/
def headAllCap (s : List Char) : Bool :=
  !s.isEmpty && (pyWords s).all capWord

/-- Second heading indicator: upper, lower, then no terminal punctuation. -/
def headCapNoPunct (s : List Char) : Bool :=
  match s with
  | c1 :: c2 :: rest =>
    c1.isUpper && c2.isLower && rest.all (fun c => !(['.', '!', '?'].contains c))
  | _ => false

/-- Third heading indicator: starts upper-case and ends in a question mark,
with no question mark or full stop in between. -/
def headQuestion (s : List Char) : Bool :=
  match s with
  | [] => false
  | c1 :: rest =>
    c1.isUpper && !rest.isEmpty && rest.getLastD ' ' == '?' &&
      rest.dropLast.all (fun c => !(['?', '.'].contains c))

/-- After the digits of the numbered-list indicator: a full stop, whitespace,
then an upper-case letter. -/
def headNumTailSp : List Char → Bool
  | [] => false
  | c :: rest => if isSpaceC c then headNumTailSp rest else c.isUpper

/-- Whitespace then an upper-case letter, at least one whitespace. -/
def headNumSp : List Char → Bool
  | [] => false
  | c :: rest => isSpaceC c && headNumTailSp rest

/-- Digits then a full stop, continuing the numbered-list indicator. -/
def headNumDigits : List Char → Bool
  | [] => false
  | c :: rest => if c.isDigit then headNumDigits rest else c == '.' && headNumSp rest

/-- Fourth heading indicator: numbered-list style, digits, full stop,
whitespace, capital letter (prefix match). -/
def headNumbered (s : List Char) : Bool :=
  match s with
  | [] => false
  | c :: rest => c.isDigit && headNumDigits rest

/-- Tail of the colon-continuation indicator after the upper-case letter of
the second part: a lower-case letter then no terminal punctuation. -/
def headColonCap : List Char → Bool
  | c :: d :: rest => c.isUpper && d.isLower && rest.all (fun e => !(['.', '!', '?'].contains e))
  | _ => false

/-- Skip whitespace after the colon, then the capitalized continuation. -/
def headColonAfterSp : List Char → Bool
  | [] => false
  | c :: rest => if isSpaceC c then headColonAfterSp rest else headColonCap (c :: rest)

/-- The optional colon part: a colon, at least one whitespace character,
then the capitalized continuation. -/
def headColonPart : List Char → Bool
  | ':' :: c :: rest => isSpaceC c && headColonAfterSp rest
  | _ => false

/-- Fifth heading indicator: an upper-case letter, word characters, then
optionally a colon continuation, to the end of the text. -/
def headColonForm (s : List Char) : Bool :=
  match s with
  | [] => false
  | c :: rest =>
    c.isUpper &&
      (let v := rest.dropWhile isWordChar
       v.isEmpty || headColonPart v)

/-- Signed heading-likeness score with its two penalties. -/
def headingLikeScore (s : List Char) : Int :=
  (if headAllCap s then 2 else 0) + (if headCapNoPunct s then 1 else 0) +
    (if headQuestion s then 2 else 0) + (if headNumbered s then 2 else 0) +
    (if headColonForm s then 1 else 0) -
    (if !s.isEmpty && ['.', '!'].contains (s.getLastD ' ') then 2 else 0) -
    (if (match s with | c :: _ => c.isLower | [] => false) && decide (3 < pyWordCount s)
     then 1 else 0)

/-- is_heading_like from app.py: at most 15 words and score at least 2. -/
def is_heading_like (t : List Char) : Bool :=
  let s := pyStrip t
  if s.isEmpty || decide (15 < pyWordCount s) then false
  else decide (2 ≤ headingLikeScore s)

/-! ## Data model -/

/-- Bounding box in page coordinates. -/
structure BBox where
  x0 : ℚ
  y0 : ℚ
  x1 : ℚ
  y1 : ℚ
deriving DecidableEq

/-- One styled text run inside a layout line. -/
structure Span where
  text : List Char
  size : ℚ
  flags : Nat
deriving DecidableEq

/-- One raw layout line as delivered by the layout provider: 0-based page
position, page width, bounding box and the styled runs. -/
structure RawLine where
  pageIndex : Nat
  pageWidth : ℚ
  bbox : BBox
  spans : List Span
deriving DecidableEq

/-- A classified line, the dictionary built at app.py lines 85-98. -/
structure Element where
  page : Nat
  text : List Char
  font_size : ℚ
  bold : Bool
  italic : Bool
  caps : Bool
  words : Nat
  centered : Bool
  density : ℚ
  bbox : BBox
  is_paragraph : Bool
  heading_like : Bool
deriving DecidableEq

/-- calculate_text_density from app.py: characters per unit width, 0 for
non-positive width. -/
def calculate_text_density (text : List Char) (bbox : BBox) : ℚ :=
  let w := bbox.x1 - bbox.x0
  if 0 < w then (text.length : ℚ) / w else 0

/-- Maximum span font size of a line (Python max over a non-empty list;
the default 0 is never reached on lines that survive the blocklist). -/
def maxSpanSize : List Span → ℚ
  | [] => 0
  | s :: rest => rest.foldl (fun m sp => max m sp.size) s.size

/-- Style flags of the first span (Python spans[0]; the default is never
reached on surviving lines). -/
def firstFlags : List Span → Nat
  | [] => 0
  | s :: _ => s.flags

/-- Per-line body of extract_text_with_style: join the span texts, strip,
drop the line when blocked, otherwise build the classified line. -/
def extractLine (l : RawLine) : Option Element :=
  let line_text := pyStrip (l.spans.map Span.text).flatten
  if is_blocked line_text then none
  else some
    { page := l.pageIndex + 1
      text := line_text
      font_size := maxSpanSize l.spans
      bold := decide (firstFlags l.spans &&& 2 ≠ 0)
      italic := decide (firstFlags l.spans &&& 4 ≠ 0)
      caps := pyIsUpper line_text
      words := pyWordCount line_text
      centered := decide (|l.bbox.x0 - (l.pageWidth - l.bbox.x1)| < 20)
      density := calculate_text_density line_text l.bbox
      bbox := l.bbox
      is_paragraph := is_paragraph line_text
      heading_like := is_heading_like line_text }

/-- extract_text_with_style from app.py, over the flattened line sequence
provided by the layout provider. -/
def extract_text_with_style (raw : List RawLine) : List Element :=
  raw.filterMap extractLine

/-! ## Title detection (find_title, app.py lines 102-112) -/

/-- Python max over a list of rationals (0 on the empty list, unreached). -/
def listMax : List ℚ → ℚ
  | [] => 0
  | x :: xs => xs.foldl max x

/-- Python min over a list of rationals (0 on the empty list, unreached). -/
def listMin : List ℚ → ℚ
  | [] => 0
  | x :: xs => xs.foldl min x

/-- The surviving first-page lines considered by find_title. -/
def firstPageLines (elements : List Element) : List Element :=
  elements.filter (fun e => e.page == 1 && !is_blocked e.text)

/-- Maximum font size among the surviving first-page lines. -/
def titleMaxFont (elements : List Element) : ℚ :=
  listMax ((firstPageLines elements).map Element.font_size)

/-- The first-page lines within 0.5 of the maximal font size, in vertical
order (Python sort is stable, as is mergeSort). -/
def titleCandidates (elements : List Element) : List Element :=
  ((firstPageLines elements).filter
      (fun e => decide (|e.font_size - titleMaxFont elements| < 1/2))).mergeSort
    (fun a b => decide (a.bbox.y0 ≤ b.bbox.y0))

/-- find_title from app.py: on the surviving first-page lines, take the
lines within 0.5 of the maximal font size, sort them by vertical position,
and join the texts of the first three with spaces. -/
def find_title (elements : List Element) : List Char :=
  if (firstPageLines elements).isEmpty then []
  else pyStrip (List.intercalate [' '] (((titleCandidates elements).take 3).map Element.text))

/-! ## Heading candidate scoring (process_headings, app.py lines 115-146) -/

/-- A scored heading candidate. -/
structure Candidate where
  elem : Element
  score : ℚ
deriving DecidableEq

/-- Font sizes of the non-paragraph lines. -/
def nonParaSizes (elements : List Element) : List ℚ :=
  (elements.filter (fun e => !e.is_paragraph)).map Element.font_size

/-- The word-count bonus of the scorer: 1 for at most 10 words, 0.5 for at
most 15, otherwise 0. -/
def lengthSubScore (w : Nat) : ℚ :=
  if w ≤ 10 then 1 else if w ≤ 15 then 1/2 else 0

/-- The heading score of one line given the mean and range of non-paragraph
font sizes (the loop body of app.py lines 131-141). -/
def lineScore (avg range : ℚ) (e : Element) : ℚ :=
  let ratio := (e.font_size - avg) / (range + 1/1000000)
  (if 1/2 < ratio then 3 else if 1/5 < ratio then 2 else if 0 < ratio then 1 else 0)
    + (if e.bold then 2 else 0)
    + (if e.caps ∧ e.words ≤ 8 then 1 else 0)
    + (if e.centered then 1 else 0)
    + lengthSubScore e.words
    + (if e.density < 3/5 then 1 else 0)
    + (if e.heading_like then 2 else 0)

/-- process_headings from app.py: keep each non-paragraph line whose score
reaches the threshold 5, together with its score. -/
def process_headings (elements : List Element) : List Candidate :=
  if elements.isEmpty then []
  else
    let sizes := nonParaSizes elements
    if sizes.isEmpty then []
    else
      let avg := sizes.sum / sizes.length
      let range := listMax sizes - listMin sizes
      elements.filterMap (fun e =>
        if e.is_paragraph then none
        else
          let s := lineScore avg range e
          if 5 ≤ s then some ⟨e, s⟩ else none)

/-! ## Level assignment (assign_heading_levels, app.py lines 148-178) -/

/-- Python round on rationals: nearest integer, ties to even. -/
def pythonRound (q : ℚ) : ℤ :=
  let f := ⌊q⌋
  if 1/2 < q - f then f + 1
  else if q - f < 1/2 then f
  else if f % 2 = 0 then f else f + 1

/-- The style signature used for clustering. -/
structure StyleKey where
  size : ℚ
  bold : Bool
  italic : Bool
  caps : Bool
  centered : Bool
deriving DecidableEq

/-- Style signature of a candidate: font size rounded to the nearest half
unit, plus the four style booleans. -/
def styleKey (c : Candidate) : StyleKey :=
  { size := (pythonRound (c.elem.font_size * 2) : ℚ) / 2
    bold := c.elem.bold
    italic := c.elem.italic
    caps := c.elem.caps
    centered := c.elem.centered }

/-- First-occurrence deduplication, the key order of a Python dict. -/
def dedupFirstAux : List StyleKey → List StyleKey → List StyleKey
  | [], _ => []
  | k :: ks, seen =>
    if k ∈ seen then dedupFirstAux ks seen
    else k :: dedupFirstAux ks (k :: seen)

/-- Cluster keys in first-occurrence order. -/
def clusterKeys (cs : List Candidate) : List StyleKey :=
  dedupFirstAux (cs.map styleKey) []

/-- The candidates carrying a given style signature, in input order. -/
def clusterItems (cs : List Candidate) (k : StyleKey) : List Candidate :=
  cs.filter (fun c => styleKey c == k)

/-- Mean candidate score of a cluster. -/
def clusterAvg (g : List Candidate) : ℚ :=
  (g.map Candidate.score).sum / g.length

/-- Sort order on clusters: descending rounded size, then descending mean
score (the ascending order of the Python key tuple (-size, -mean)). -/
def clusterLE (a b : StyleKey × List Candidate) : Bool :=
  decide (b.1.size < a.1.size ∨ (a.1.size = b.1.size ∧ clusterAvg b.2 ≤ clusterAvg a.2))

/-- Clusters in rank order: stable sort of the insertion-ordered clusters. -/
def rankedClusters (cs : List Candidate) : List (StyleKey × List Candidate) :=
  ((clusterKeys cs).map (fun k => (k, clusterItems cs k))).mergeSort clusterLE

/-- A produced heading (app.py lines 169-175). -/
structure Heading where
  level : String
  text : List Char
  page : Nat
  font_size : ℚ
  position : BBox
deriving DecidableEq

/-- Build the heading of a candidate at a given 1-based rank, clamping the
level at 6. -/
def mkHeading (lvl : Nat) (c : Candidate) : Heading :=
  { level := "H" ++ toString (min lvl 6)
    text := c.elem.text
    page := c.elem.page
    font_size := c.elem.font_size
    position := c.elem.bbox }

/-- The enumerate(..., start=n) loop over ranked clusters, keeping each
candidate with its 1-based cluster rank. -/
def levelsFrom (n : Nat) : List (StyleKey × List Candidate) → List (Candidate × Nat)
  | [] => []
  | (_, g) :: rest => g.map (fun c => (c, n)) ++ levelsFrom (n + 1) rest

/-- Candidates paired with their assigned 1-based cluster rank. -/
def levelsOf (cs : List Candidate) : List (Candidate × Nat) :=
  levelsFrom 1 (rankedClusters cs)

/-- Reading order on headings: page ascending, then vertical position
ascending. -/
def readingLE (a b : Heading) : Bool :=
  decide (a.page < b.page ∨ (a.page = b.page ∧ a.position.y0 ≤ b.position.y0))

/-- assign_heading_levels from app.py: cluster, rank, level with clamp at 6,
then stable sort into reading order. -/
def assign_heading_levels (cs : List Candidate) : List Heading :=
  if cs.isEmpty then []
  else ((levelsOf cs).map (fun p => mkHeading p.2 p.1)).mergeSort readingLE

/-! ## Whole-document pipeline (extract_document_structure, lines 181-191) -/

/-- One outline entry of the output record. -/
structure OutlineEntry where
  level : String
  text : List Char
  page : Nat
deriving DecidableEq

/-- The output record: title plus outline. -/
structure DocStructure where
  title : List Char
  outline : List OutlineEntry
deriving DecidableEq

/-- extract_document_structure from app.py. -/
def extract_document_structure (raw : List RawLine) : DocStructure :=
  let elements := extract_text_with_style raw
  { title := find_title elements
    outline := (assign_heading_levels (process_headings elements)).map
      (fun h => { level := h.level, text := h.text, page := h.page }) }

/-! ## Concrete example inputs used by the claims and witnesses -/

/-- A line used for the threshold boundary: its heading score is exactly 4
in the singleton run. -/
def elemScore4 : Element :=
  { page := 1, text := "Bold note".data, font_size := 12, bold := true, italic := false,
    caps := false, words := 2, centered := false, density := 1/2,
    bbox := ⟨0, 0, 10, 5⟩, is_paragraph := false, heading_like := false }

/-- The same line with one more contributing signal, scoring exactly 5. -/
def elemScore5 : Element :=
  { elemScore4 with centered := true }

/-- A first-page line with the given text, font size and vertical position,
all other features neutral. -/
def titleLine (txt : String) (sz y : ℚ) : Element :=
  { page := 1, text := txt.data, font_size := sz, bold := false, italic := false,
    caps := false, words := 0, centered := false, density := 0,
    bbox := ⟨0, y, 0, y⟩, is_paragraph := false, heading_like := false }

/-- A first page with font sizes 24, 24, 12, 24 at increasing vertical
positions. -/
def titleExample : List Element :=
  [titleLine "Neural Document Parsing" 24 10,
   titleLine "With Layout Signals" 24 20,
   titleLine "draft note only" 12 30,
   titleLine "Technical Report Series" 24 40]

/-- A raw line whose text is a bare page number, hence blocked. -/
def pageNumberLine : RawLine :=
  { pageIndex := 0, pageWidth := 100, bbox := ⟨0, 0, 10, 5⟩,
    spans := [{ text := "7".data, size := 12, flags := 0 }] }

/-! ## Helper lemmas -/

lemma mem_process_headings {es : List Element} {e : Element} {s : ℚ}
    (hne : ¬es.isEmpty) (hsz : ¬(nonParaSizes es).isEmpty) :
    Candidate.mk e s ∈ process_headings es ↔
      e ∈ es ∧ e.is_paragraph = false ∧
        s = lineScore ((nonParaSizes es).sum / (nonParaSizes es).length)
              (listMax (nonParaSizes es) - listMin (nonParaSizes es)) e ∧ 5 ≤ s := by
  unfold process_headings
  rw [if_neg hne, if_neg hsz, List.mem_filterMap]
  constructor
  · rintro ⟨a, ha, hfa⟩
    by_cases hp : a.is_paragraph
    · simp [hp] at hfa
    · simp only [hp, if_false, Bool.false_eq_true] at hfa
      by_cases h5 : (5 : ℚ) ≤ lineScore ((nonParaSizes es).sum / (nonParaSizes es).length)
          (listMax (nonParaSizes es) - listMin (nonParaSizes es)) a
      · rw [if_pos h5] at hfa
        obtain ⟨rfl, rfl⟩ := by simpa [Candidate.mk.injEq] using hfa
        exact ⟨ha, Bool.eq_false_iff.mpr hp, rfl, h5⟩
      · rw [if_neg h5] at hfa
        simp at hfa
  · rintro ⟨he, hp, hs, h5⟩
    refine ⟨e, he, ?_⟩
    rw [if_neg (by simp [hp]), if_pos (hs ▸ h5), hs]

lemma nonParaSizes_ne_of_mem {es : List Element} {e0 : Element}
    (he0 : e0 ∈ es) (hp0 : e0.is_paragraph = false) : ¬(nonParaSizes es).isEmpty := by
  have hmem : e0.font_size ∈ nonParaSizes es :=
    List.mem_map_of_mem _ (List.mem_filter.mpr ⟨he0, by simp [hp0]⟩)
  intro h
  rw [List.isEmpty_iff] at h
  simp [h] at hmem

/-! ## Claims -/

/-- C1: on any run with at least one non-paragraph line, process_headings
keeps exactly the non-paragraph lines whose score reaches 5, the score
being the size-ratio bucket plus the additive bonuses of app.py lines
131-141; a line totalling exactly 4 is excluded and one totalling exactly
5 is included. -/
theorem claim_C1 :
    (∀ (es : List Element) (e : Element) (s : ℚ), (∃ e0 ∈ es, e0.is_paragraph = false) →
      (Candidate.mk e s ∈ process_headings es ↔
        e ∈ es ∧ e.is_paragraph = false ∧
          s = lineScore ((nonParaSizes es).sum / (nonParaSizes es).length)
                (listMax (nonParaSizes es) - listMin (nonParaSizes es)) e ∧ 5 ≤ s)) ∧
    (∀ (avg range : ℚ) (e : Element),
      lineScore avg range e =
        (if 1/2 < (e.font_size - avg) / (range + 1/1000000) then 3
         else if 1/5 < (e.font_size - avg) / (range + 1/1000000) then 2
         else if 0 < (e.font_size - avg) / (range + 1/1000000) then 1 else 0)
          + (if e.bold then 2 else 0)
          + (if e.caps ∧ e.words ≤ 8 then 1 else 0)
          + (if e.centered then 1 else 0)
          + (if e.words ≤ 10 then 1 else if e.words ≤ 15 then 1/2 else 0)
          + (if e.density < 3/5 then 1 else 0)
          + (if e.heading_like then 2 else 0)) ∧
    lineScore 12 0 elemScore4 = 4 ∧ process_headings [elemScore4] = [] ∧
    lineScore 12 0 elemScore5 = 5 ∧
    process_headings [elemScore5] = [Candidate.mk elemScore5 5] := by
  refine ⟨?_, ?_, by norm_num [lineScore, lengthSubScore, elemScore4],
    by norm_num [process_headings, nonParaSizes, listMax, listMin, lineScore, lengthSubScore,
      elemScore4, List.filterMap_cons],
    by norm_num [lineScore, lengthSubScore, elemScore5, elemScore4],
    by norm_num [process_headings, nonParaSizes, listMax, listMin, lineScore, lengthSubScore,
      elemScore5, elemScore4, List.filterMap_cons]⟩
  · intro es e s hex
    obtain ⟨e0, he0, hp0⟩ := hex
    have hne : ¬es.isEmpty := by
      cases es
      · simp at he0
      · simp
    exact mem_process_headings hne (nonParaSizes_ne_of_mem he0 hp0)
  · intro avg range e
    rfl

/-- Witness for C1 at a concrete input: the boundary line scoring exactly 5
is kept. -/
theorem claim_C1_witness :
    Candidate.mk elemScore5 5 ∈ process_headings [elemScore5] :=
  (claim_C1.1 [elemScore5] elemScore5 5 ⟨elemScore5, by simp, rfl⟩).mpr
    ⟨by simp, rfl, by norm_num [lineScore, lengthSubScore, nonParaSizes, listMax, listMin,
      elemScore5, elemScore4], by norm_num⟩

/-- C6: a run whose extraction yields no lines produces the empty title and
the empty outline. -/
theorem claim_C6 (raw : List RawLine) (h : extract_text_with_style raw = []) :
    extract_document_structure raw = { title := [], outline := [] } := by
  simp [extract_document_structure, h, find_title, firstPageLines, process_headings,
    assign_heading_levels]

/-- Witness for C6: the empty line sequence. -/
theorem claim_C6_witness :
    extract_text_with_style [] = [] ∧
      extract_document_structure [] = { title := [], outline := [] } :=
  ⟨rfl, claim_C6 [] rfl⟩

/-- C8: turning on the bold flag never decreases the heading score, and the
word-count sub-score beyond 15 words never exceeds the sub-score at 15 or
fewer words. -/
theorem claim_C8 :
    (∀ (avg range : ℚ) (e : Element),
      lineScore avg range { e with bold := false } ≤ lineScore avg range { e with bold := true }) ∧
    (∀ w1 w2 : Nat, 15 < w1 → w2 ≤ 15 → lengthSubScore w1 ≤ lengthSubScore w2) := by
  constructor
  · intro avg range e
    simp only [lineScore]
    norm_num
  · intro w1 w2 h1 h2
    unfold lengthSubScore
    split_ifs <;> first | omega | norm_num

/-- Witness for C8 at concrete word counts 16 and 9. -/
theorem claim_C8_witness :
    (15 < 16 ∧ 9 ≤ 15) ∧ lengthSubScore 16 ≤ lengthSubScore 9 :=
  ⟨⟨by norm_num, by norm_num⟩, claim_C8.2 16 9 (by norm_num) (by norm_num)⟩

lemma readingLE_trans : ∀ a b c : Heading, readingLE a b → readingLE b c → readingLE a c := by
  intro a b c hab hbc
  simp only [readingLE, decide_eq_true_eq] at *
  rcases hab with h | ⟨h1, h2⟩ <;> rcases hbc with h' | ⟨h1', h2'⟩
  · exact Or.inl (h.trans h')
  · exact Or.inl (h1' ▸ h)
  · exact Or.inl (h1 ▸ h')
  · exact Or.inr ⟨h1.trans h1', h2.trans h2'⟩

lemma readingLE_total : ∀ a b : Heading, readingLE a b || readingLE b a := by
  intro a b
  simp only [readingLE, Bool.or_eq_true, decide_eq_true_eq]
  rcases lt_trichotomy a.page b.page with h | h | h
  · exact Or.inl (Or.inl h)
  · rcases le_total a.position.y0 b.position.y0 with h' | h'
    · exact Or.inl (Or.inr ⟨h, h'⟩)
    · exact Or.inr (Or.inr ⟨h.symm, h'⟩)
  · exact Or.inr (Or.inl h)

lemma assign_pairwise (cs : List Candidate) :
    (assign_heading_levels cs).Pairwise
      (fun a b => a.page ≤ b.page ∧ (a.page = b.page → a.position.y0 ≤ b.position.y0)) := by
  unfold assign_heading_levels
  split
  · simp
  · refine (List.sorted_mergeSort readingLE_trans readingLE_total _).imp ?_
    intro a b hab
    simp only [readingLE, decide_eq_true_eq] at hab
    rcases hab with h | ⟨h1, h2⟩
    · exact ⟨le_of_lt h, fun he => absurd he (ne_of_lt h)⟩
    · exact ⟨le_of_eq h1, fun _ => h2⟩

/-- C4: the produced outline is in document reading order: page numbers are
non-decreasing, and the headings it projects are non-decreasing in vertical
position within each page. -/
theorem claim_C4 (raw : List RawLine) :
    ((extract_document_structure raw).outline).Pairwise (fun a b => a.page ≤ b.page) ∧
    ((extract_document_structure raw).outline =
      (assign_heading_levels (process_headings (extract_text_with_style raw))).map
        (fun h => { level := h.level, text := h.text, page := h.page })) ∧
    (assign_heading_levels (process_headings (extract_text_with_style raw))).Pairwise
      (fun a b => a.page ≤ b.page ∧ (a.page = b.page → a.position.y0 ≤ b.position.y0)) := by
  refine ⟨?_, rfl, assign_pairwise _⟩
  show (((assign_heading_levels (process_headings (extract_text_with_style raw))).map
      (fun h => ({ level := h.level, text := h.text, page := h.page } : OutlineEntry)))).Pairwise _
  exact (assign_pairwise _).map _ (fun a b hab => hab.1)

lemma splitP_eq_single (p : Char → Bool) (l : List Char) (h : ∀ c ∈ l, p c = false) :
    splitP p l = [l] := by
  induction l with
  | nil => rfl
  | cons c cs ih =>
    have hc : p c = false := h c (List.mem_cons_self c cs)
    have ih' := ih (fun d hd => h d (List.mem_cons_of_mem c hd))
    simp [splitP, hc, ih']

lemma pyStrip_subset {c : Char} {t : List Char} (h : c ∈ pyStrip t) : c ∈ t := by
  unfold pyStrip at h
  rw [List.mem_reverse] at h
  have h2 := (List.dropWhile_sublist isSpaceC).subset h
  rw [List.mem_reverse] at h2
  exact (List.dropWhile_sublist isSpaceC).subset h2

/-- C9: is_paragraph is false below 8 words, and at 8 or more words it holds
exactly when at least 3 of the 5 textual signals hold, the fifth signal
being a trimmed length of at least 50 characters (on newline-free lines). -/
theorem claim_C9 (t : List Char) (hnl : '\n' ∉ t) :
    (pyWordCount (pyStrip t) < 8 → is_paragraph t = false) ∧
    (8 ≤ pyWordCount (pyStrip t) →
      (is_paragraph t = true ↔
        3 ≤ [paraCapPunct (pyStrip t), paraLowerWord (pyStrip t), paraCommaLower (pyStrip t),
             paraFuncWord (pyStrip t), decide (50 ≤ (pyStrip t).length)].count true)) := by
  have h5 : paraLong (pyStrip t) = decide (50 ≤ (pyStrip t).length) := by
    unfold paraLong
    rw [splitP_eq_single _ _ (fun c hc => by
      simp only [beq_eq_false_iff_ne, ne_eq]
      rintro rfl
      exact hnl (pyStrip_subset hc))]
    simp
  constructor
  · intro h
    unfold is_paragraph
    rw [if_pos]
    simp [h]
  · intro h
    unfold is_paragraph
    rw [if_neg]
    · unfold paraCount
      rw [h5]
      simp
    · intro hcond
      rcases Bool.or_eq_true _ _ ▸ hcond with he | hlt
      · rw [List.isEmpty_iff] at he
        rw [he] at h
        simp [pyWordCount, pyWords, splitP] at h
      · rw [decide_eq_true_eq] at hlt
        omega

/-- Witness for C9: a concrete newline-free sentence with 9 words is
classified as a paragraph. -/
theorem claim_C9_witness :
    is_paragraph "The quick brown fox jumps over the lazy dog.".data = true :=
  ((claim_C9 "The quick brown fox jumps over the lazy dog.".data (by decide)).2
    (by decide)).mpr (by decide)

lemma intercalate_single (sep t : List Char) : List.intercalate sep [t] = t := by
  simp [List.intercalate]

lemma intercalate_cons₂ (sep t r : List Char) (rs : List (List Char)) :
    List.intercalate sep (t :: r :: rs) = t ++ sep ++ List.intercalate sep (r :: rs) := by
  simp [List.intercalate, List.intersperse]

lemma cons_head_not_space {c : Char} {cs : List Char}
    (h : (c :: cs).dropWhile isSpaceC = c :: cs) : isSpaceC c = false := by
  by_contra hc
  rw [Bool.not_eq_false] at hc
  rw [List.dropWhile_cons, if_pos hc] at h
  have hle := (List.dropWhile_sublist (l := cs) isSpaceC).length_le
  rw [h] at hle
  simp at hle

lemma pyStrip_fix {t : List Char} (h : pyStrip t = t) :
    t.dropWhile isSpaceC = t ∧ t.reverse.dropWhile isSpaceC = t.reverse := by
  unfold pyStrip at h
  have h1 := (List.dropWhile_sublist (l := t) isSpaceC).length_le
  have h2 := (List.dropWhile_sublist (l := (t.dropWhile isSpaceC).reverse) isSpaceC).length_le
  have hlen : (((t.dropWhile isSpaceC).reverse.dropWhile isSpaceC).reverse).length = t.length := by
    rw [h]
  simp only [List.length_reverse] at hlen h2
  have hu : (t.dropWhile isSpaceC).length = t.length := by omega
  have hueq := (List.dropWhile_sublist (l := t) isSpaceC).eq_of_length hu
  refine ⟨hueq, ?_⟩
  have hveq := (List.dropWhile_sublist (l := (t.dropWhile isSpaceC).reverse) isSpaceC).eq_of_length
    (by simp only [List.length_reverse]; omega)
  rw [hueq] at hveq
  exact hveq

lemma intercalate_rev_fix : ∀ ts : List (List Char), (∀ t ∈ ts, t ≠ [] ∧ pyStrip t = t) →
    (List.intercalate [' '] ts).reverse.dropWhile isSpaceC = (List.intercalate [' '] ts).reverse := by
  intro ts
  induction ts with
  | nil => intro _; rfl
  | cons t rest ih =>
    intro H
    cases rest with
    | nil =>
      rw [intercalate_single]
      exact (pyStrip_fix (H t (List.mem_cons_self t [])).2).2
    | cons r rs =>
      have ih' := ih (fun x hx => H x (List.mem_cons_of_mem _ hx))
      have hrne : List.intercalate [' '] (r :: rs) ≠ [] := by
        have hr := (H r (List.mem_cons_of_mem _ (List.mem_cons_self r rs))).1
        cases rs with
        | nil => rw [intercalate_single]; exact hr
        | cons q qs =>
          rw [intercalate_cons₂]
          simp [hr]
      have hrevne : (List.intercalate [' '] (r :: rs)).reverse ≠ [] := by simpa using hrne
      obtain ⟨c, z, hcz⟩ := List.exists_cons_of_ne_nil hrevne
      have hc : isSpaceC c = false := cons_head_not_space (by rw [← hcz]; exact ih')
      rw [intercalate_cons₂, List.append_assoc, List.reverse_append, List.reverse_append, hcz]
      simp only [List.reverse_singleton, List.cons_append, List.append_assoc]
      rw [List.dropWhile_cons, if_neg (by simp [hc])]

lemma intercalate_fix (ts : List (List Char)) (H : ∀ t ∈ ts, t ≠ [] ∧ pyStrip t = t) :
    pyStrip (List.intercalate [' '] ts) = List.intercalate [' '] ts := by
  cases ts with
  | nil => rfl
  | cons t rest =>
    have hfront : (List.intercalate [' '] (t :: rest)).dropWhile isSpaceC
        = List.intercalate [' '] (t :: rest) := by
      obtain ⟨hne, hfix⟩ := H t (List.mem_cons_self t rest)
      obtain ⟨c, t', rfl⟩ := List.exists_cons_of_ne_nil hne
      have hc : isSpaceC c = false := cons_head_not_space (pyStrip_fix hfix).1
      cases rest with
      | nil =>
        rw [intercalate_single, List.dropWhile_cons, if_neg (by simp [hc])]
      | cons r rs =>
        rw [intercalate_cons₂, List.append_assoc, List.cons_append]
        rw [List.dropWhile_cons, if_neg (by simp [hc])]
    unfold pyStrip
    rw [hfront, intercalate_rev_fix _ H, List.reverse_reverse]

lemma mem_titleCandidates {es : List Element} {e : Element} (h : e ∈ titleCandidates es) :
    e ∈ es ∧ is_blocked e.text = false := by
  unfold titleCandidates at h
  rw [List.mem_mergeSort] at h
  have h1 := (List.mem_filter.mp h).1
  have h2 := List.mem_filter.mp h1
  refine ⟨h2.1, ?_⟩
  have h3 := h2.2
  rw [Bool.and_eq_true] at h3
  simpa using h3.2

/-- C2: with at least one non-blocked line on page 1, the title is the
space-joined text of the first 3 title candidates, the candidates being the
surviving page-1 lines within 0.5 of the maximal page-1 font size ordered
by ascending top coordinate; an empty first page gives the empty title; and
the size pattern 24, 24, 12, 24 yields the three size-24 texts joined in
vertical order. -/
theorem claim_C2 :
    (∀ es : List Element, (∀ e ∈ es, pyStrip e.text = e.text) → firstPageLines es ≠ [] →
      find_title es = List.intercalate [' '] (((titleCandidates es).take 3).map Element.text)) ∧
    (∀ es : List Element, firstPageLines es = [] → find_title es = []) ∧
    find_title titleExample =
      "Neural Document Parsing With Layout Signals Technical Report Series".data := by
  refine ⟨?_, ?_, ?_⟩
  · intro es hstrip hne
    unfold find_title
    rw [if_neg (by simpa [List.isEmpty_iff] using hne)]
    apply intercalate_fix
    intro x hx
    obtain ⟨e, he, rfl⟩ := List.mem_map.mp hx
    have he1 : e ∈ titleCandidates es := List.take_subset _ _ he
    obtain ⟨hees, hblock⟩ := mem_titleCandidates he1
    have hfix := hstrip e hees
    refine ⟨?_, hfix⟩
    intro h0
    rw [h0] at hblock
    exact absurd hblock (by decide)
  · intro es h
    unfold find_title
    rw [if_pos (by simp [List.isEmpty_iff, h])]
  · have hb1 : is_blocked "Neural Document Parsing".data = false := by decide
    have hb2 : is_blocked "With Layout Signals".data = false := by decide
    have hb3 : is_blocked "draft note only".data = false := by decide
    have hb4 : is_blocked "Technical Report Series".data = false := by decide
    have hfp : firstPageLines titleExample = titleExample := by
      simp [firstPageLines, titleExample, titleLine, List.filter_cons, hb1, hb2, hb3, hb4]
    have hmax : titleMaxFont titleExample = 24 := by
      rw [titleMaxFont, hfp]
      norm_num [titleExample, titleLine, listMax]
    have hcands : titleCandidates titleExample =
        [titleLine "Neural Document Parsing" 24 10,
         titleLine "With Layout Signals" 24 20,
         titleLine "Technical Report Series" 24 40] := by
      unfold titleCandidates
      rw [hmax, hfp]
      have hfilter : titleExample.filter (fun e => decide (|e.font_size - 24| < 1/2)) =
          [titleLine "Neural Document Parsing" 24 10,
           titleLine "With Layout Signals" 24 20,
           titleLine "Technical Report Series" 24 40] := by
        norm_num [titleExample, titleLine, List.filter_cons]
      rw [hfilter]
      apply List.mergeSort_of_sorted
      decide
    unfold find_title
    rw [if_neg (by rw [hfp]; simp [titleExample])]
    rw [hcands]
    decide

/-- Witness for C2: the general title formula applied to the concrete
four-line first page. -/
theorem claim_C2_witness :
    find_title titleExample =
      List.intercalate [' '] (((titleCandidates titleExample).take 3).map Element.text) :=
  claim_C2.1 titleExample (by decide) (by decide)

lemma dedupFirstAux_mem : ∀ (l seen : List StyleKey) (k : StyleKey),
    k ∈ dedupFirstAux l seen ↔ k ∈ l ∧ k ∉ seen := by
  intro l
  induction l with
  | nil => intro seen k; simp [dedupFirstAux]
  | cons k' ks ih =>
    intro seen k
    unfold dedupFirstAux
    by_cases hk' : k' ∈ seen
    · rw [if_pos hk', ih]
      constructor
      · rintro ⟨h1, h2⟩
        exact ⟨List.mem_cons_of_mem _ h1, h2⟩
      · rintro ⟨h1, h2⟩
        rcases List.mem_cons.mp h1 with rfl | h1
        · exact absurd hk' h2
        · exact ⟨h1, h2⟩
    · rw [if_neg hk']
      constructor
      · intro h
        rcases List.mem_cons.mp h with rfl | h
        · exact ⟨List.mem_cons_self _ _, hk'⟩
        · obtain ⟨h1, h2⟩ := (ih _ k).mp h
          exact ⟨List.mem_cons_of_mem _ h1,
            fun hs => h2 (List.mem_cons_of_mem _ hs)⟩
      · rintro ⟨h1, h2⟩
        rcases List.mem_cons.mp h1 with rfl | h1
        · exact List.mem_cons_self _ _
        · by_cases hkk : k = k'
          · exact hkk ▸ List.mem_cons_self _ _
          · exact List.mem_cons_of_mem _ ((ih _ k).mpr
              ⟨h1, by simp [List.mem_cons, hkk, h2]⟩)

lemma dedupFirstAux_nodup : ∀ (l seen : List StyleKey), (dedupFirstAux l seen).Nodup := by
  intro l
  induction l with
  | nil => intro seen; simp [dedupFirstAux]
  | cons k' ks ih =>
    intro seen
    unfold dedupFirstAux
    by_cases hk' : k' ∈ seen
    · rw [if_pos hk']
      exact ih seen
    · rw [if_neg hk']
      refine List.nodup_cons.mpr ⟨?_, ih _⟩
      intro hmem
      exact ((dedupFirstAux_mem _ _ _).mp hmem).2 (List.mem_cons_self _ _)

lemma clusterKeys_mem {cs : List Candidate} {k : StyleKey} :
    k ∈ clusterKeys cs ↔ k ∈ cs.map styleKey := by
  unfold clusterKeys
  rw [dedupFirstAux_mem]
  simp

lemma rankedClusters_mem {cs : List Candidate} {p : StyleKey × List Candidate} :
    p ∈ rankedClusters cs ↔ ∃ k ∈ clusterKeys cs, p = (k, clusterItems cs k) := by
  unfold rankedClusters
  rw [List.mem_mergeSort, List.mem_map]
  constructor
  · rintro ⟨k, hk, rfl⟩
    exact ⟨k, hk, rfl⟩
  · rintro ⟨k, hk, rfl⟩
    exact ⟨k, hk, rfl⟩

lemma rankedClusters_fst_nodup (cs : List Candidate) :
    ((rankedClusters cs).map Prod.fst).Nodup := by
  have hperm : List.Perm ((rankedClusters cs).map Prod.fst)
      (((clusterKeys cs).map (fun k => (k, clusterItems cs k))).map Prod.fst) :=
    (List.mergeSort_perm _ _).map Prod.fst
  have heq : ((clusterKeys cs).map (fun k => (k, clusterItems cs k))).map Prod.fst
      = clusterKeys cs := by
    induction clusterKeys cs with
    | nil => rfl
    | cons k ks ih => simpa using ih
  rw [heq] at hperm
  exact hperm.symm.nodup (dedupFirstAux_nodup _ _)

lemma levelsFrom_mem_intro :
    ∀ (groups : List (StyleKey × List Candidate)) (n k : Nat) (key : StyleKey)
      (g : List Candidate) (c : Candidate),
      groups[k]? = some (key, g) → c ∈ g → (c, n + k) ∈ levelsFrom n groups := by
  intro groups
  induction groups with
  | nil => intro n k key g c h; simp at h
  | cons p rest ih =>
    intro n k key g c h hc
    obtain ⟨pk, pg⟩ := p
    cases k with
    | zero =>
      simp only [List.getElem?_cons_zero, Option.some.injEq, Prod.mk.injEq] at h
      obtain ⟨rfl, rfl⟩ := h
      exact List.mem_append_left _ (List.mem_map.mpr ⟨c, hc, rfl⟩)
    | succ k' =>
      rw [List.getElem?_cons_succ] at h
      have := ih (n + 1) k' key g c h hc
      refine List.mem_append_right _ ?_
      have harith : n + 1 + k' = n + (k' + 1) := by omega
      rw [harith] at this
      exact this

lemma levelsFrom_mem_elim :
    ∀ (groups : List (StyleKey × List Candidate)) (n : Nat) (c : Candidate) (m : Nat),
      (c, m) ∈ levelsFrom n groups →
      ∃ k key g, groups[k]? = some (key, g) ∧ c ∈ g ∧ m = n + k := by
  intro groups
  induction groups with
  | nil => intro n c m h; simp [levelsFrom] at h
  | cons p rest ih =>
    intro n c m h
    obtain ⟨pk, pg⟩ := p
    rcases List.mem_append.mp h with h1 | h1
    · obtain ⟨c', hc', heq⟩ := List.mem_map.mp h1
      obtain ⟨rfl, rfl⟩ := Prod.mk.injEq .. ▸ heq
      exact ⟨0, pk, pg, by simp, hc', by omega⟩
    · obtain ⟨k, key, g, hk, hc, rfl⟩ := ih (n + 1) c m h1
      exact ⟨k + 1, key, g, by simpa using hk, hc, by omega⟩

lemma clusterKeys_ne_nil {cs : List Candidate} (h : cs ≠ []) : clusterKeys cs ≠ [] := by
  obtain ⟨c, rest, rfl⟩ := List.exists_cons_of_ne_nil h
  intro hk
  have : styleKey c ∈ clusterKeys (c :: rest) :=
    clusterKeys_mem.mpr (List.mem_map.mpr ⟨c, List.mem_cons_self _ _, rfl⟩)
  rw [hk] at this
  simp at this

lemma rankedClusters_ne_nil {cs : List Candidate} (h : cs ≠ []) : rankedClusters cs ≠ [] := by
  intro hr
  have hlen : (rankedClusters cs).length =
      ((clusterKeys cs).map (fun k => (k, clusterItems cs k))).length := by
    unfold rankedClusters
    exact List.length_mergeSort _
  rw [hr] at hlen
  simp only [List.length_nil, List.length_map] at hlen
  exact clusterKeys_ne_nil h (List.length_eq_zero.mp hlen.symm)

lemma cs_ne_nil_of_ranked {cs : List Candidate} (h : rankedClusters cs ≠ []) : cs ≠ [] := by
  rintro rfl
  exact h (by simp [rankedClusters, clusterKeys, dedupFirstAux])

lemma mem_assign_iff {cs : List Candidate} (h : cs ≠ []) {hd : Heading} :
    hd ∈ assign_heading_levels cs ↔ ∃ p ∈ levelsOf cs, hd = mkHeading p.2 p.1 := by
  unfold assign_heading_levels
  rw [if_neg (by simpa [List.isEmpty_iff] using h), List.mem_mergeSort, List.mem_map]
  constructor
  · rintro ⟨p, hp, rfl⟩
    exact ⟨p, hp, rfl⟩
  · rintro ⟨p, hp, rfl⟩
    exact ⟨p, hp, rfl⟩

lemma clusterLE_trans : ∀ a b c : StyleKey × List Candidate,
    clusterLE a b → clusterLE b c → clusterLE a c := by
  intro a b c hab hbc
  simp only [clusterLE, decide_eq_true_eq] at *
  rcases hab with h | ⟨h1, h2⟩ <;> rcases hbc with h' | ⟨h1', h2'⟩
  · exact Or.inl (h'.trans h)
  · exact Or.inl (by rw [← h1']; exact h)
  · exact Or.inl (by rw [h1]; exact h')
  · exact Or.inr ⟨h1.trans h1', h2'.trans h2⟩

lemma clusterLE_total : ∀ a b : StyleKey × List Candidate,
    clusterLE a b || clusterLE b a := by
  intro a b
  simp only [clusterLE, Bool.or_eq_true, decide_eq_true_eq]
  rcases lt_trichotomy a.1.size b.1.size with h | h | h
  · exact Or.inr (Or.inl h)
  · rcases le_total (clusterAvg a.2) (clusterAvg b.2) with h' | h'
    · exact Or.inr (Or.inr ⟨h.symm, h'⟩)
    · exact Or.inl (Or.inr ⟨h, h'⟩)
  · exact Or.inl (Or.inl h)

lemma mem_clusterItems_key {cs : List Candidate} {key : StyleKey} {c : Candidate}
    (h : c ∈ clusterItems cs key) : c ∈ cs ∧ styleKey c = key := by
  have h1 := List.mem_filter.mp h
  exact ⟨h1.1, by simpa using h1.2⟩

/-- C3: ranked cluster k (0-based) holds exactly the candidates of its style
signature, every one of its candidates is emitted at level H(min(k+1, 6)),
the clusters are ranked by descending rounded size then descending mean
score, and every emitted level lies between H1 and H6. -/
theorem claim_C3 (cs : List Candidate) :
    (∀ (k : Nat) (key : StyleKey) (g : List Candidate),
      (rankedClusters cs)[k]? = some (key, g) →
      g = clusterItems cs key ∧
        ∀ c ∈ g, mkHeading (k + 1) c ∈ assign_heading_levels cs) ∧
    (rankedClusters cs).Pairwise (fun a b => clusterLE a b) ∧
    (∀ hd ∈ assign_heading_levels cs,
      ∃ n, 1 ≤ n ∧ n ≤ 6 ∧ hd.level = "H" ++ toString n) := by
  refine ⟨?_, ?_, ?_⟩
  · intro k key g hk
    have hmem : (key, g) ∈ rankedClusters cs := List.getElem?_mem hk
    obtain ⟨key', hkey', heq⟩ := rankedClusters_mem.mp hmem
    have hfst : key = key' := congrArg Prod.fst heq
    have hsnd : g = clusterItems cs key' := congrArg Prod.snd heq
    subst hfst
    refine ⟨hsnd, ?_⟩
    intro c hc
    have hcs : cs ≠ [] := cs_ne_nil_of_ranked (by
      intro h0
      rw [h0] at hk
      simp at hk)
    rw [mem_assign_iff hcs]
    refine ⟨(c, k + 1), ?_, rfl⟩
    have hin := levelsFrom_mem_intro (rankedClusters cs) 1 k key g c hk hc
    rw [Nat.add_comm] at hin
    exact hin
  · exact List.sorted_mergeSort clusterLE_trans clusterLE_total _
  · intro hd hmem
    have hcs : cs ≠ [] := by
      rintro rfl
      simp [assign_heading_levels] at hmem
    obtain ⟨p, hp, rfl⟩ := (mem_assign_iff hcs).mp hmem
    obtain ⟨c, m⟩ := p
    obtain ⟨k, key, g, hk, hc, hm⟩ := levelsFrom_mem_elim _ 1 c m hp
    refine ⟨min m 6, le_min (by omega) (by norm_num), min_le_right _ _, rfl⟩

/-- Witness for C3: in a singleton candidate run, the unique cluster is at
rank 0 and its candidate is emitted at level H1. -/
theorem claim_C3_witness :
    mkHeading 1 (⟨elemScore5, 5⟩ : Candidate) ∈
      assign_heading_levels [(⟨elemScore5, 5⟩ : Candidate)] :=
  ((claim_C3 [⟨elemScore5, 5⟩]).1 0 (styleKey ⟨elemScore5, 5⟩) [⟨elemScore5, 5⟩]
    (by simp [rankedClusters, clusterKeys, dedupFirstAux, clusterItems,
      List.filter])).2 ⟨elemScore5, 5⟩ (by simp)

/-- C7: two candidates of one run sharing font size, bold, italic, caps and
centered are assigned the same 1-based cluster rank, hence the same level
string, and both resulting headings are emitted. -/
theorem claim_C7 (cs : List Candidate) (c1 c2 : Candidate) (n1 n2 : Nat)
    (h1 : (c1, n1) ∈ levelsOf cs) (h2 : (c2, n2) ∈ levelsOf cs)
    (hf : c1.elem.font_size = c2.elem.font_size)
    (hb : c1.elem.bold = c2.elem.bold) (hi : c1.elem.italic = c2.elem.italic)
    (hc : c1.elem.caps = c2.elem.caps) (hcen : c1.elem.centered = c2.elem.centered) :
    n1 = n2 ∧ (mkHeading n1 c1).level = (mkHeading n2 c2).level ∧
      mkHeading n1 c1 ∈ assign_heading_levels cs ∧
      mkHeading n2 c2 ∈ assign_heading_levels cs := by
  have hkey : styleKey c1 = styleKey c2 := by
    unfold styleKey
    rw [hf, hb, hi, hc, hcen]
  have hcs : cs ≠ [] := by
    rintro rfl
    simp [levelsOf, rankedClusters, clusterKeys, dedupFirstAux, levelsFrom] at h1
  obtain ⟨k1, key1, g1, hk1, hg1, hm1⟩ := levelsFrom_mem_elim _ 1 c1 n1 h1
  obtain ⟨k2, key2, g2, hk2, hg2, hm2⟩ := levelsFrom_mem_elim _ 1 c2 n2 h2
  have hkey1 : styleKey c1 = key1 := by
    obtain ⟨key', hk', heq⟩ := rankedClusters_mem.mp (List.getElem?_mem hk1)
    have hfst : key1 = key' := congrArg Prod.fst heq
    have hsnd : g1 = clusterItems cs key' := congrArg Prod.snd heq
    rw [hfst, (mem_clusterItems_key (hsnd ▸ hg1)).2]
  have hkey2 : styleKey c2 = key2 := by
    obtain ⟨key', hk', heq⟩ := rankedClusters_mem.mp (List.getElem?_mem hk2)
    have hfst : key2 = key' := congrArg Prod.fst heq
    have hsnd : g2 = clusterItems cs key' := congrArg Prod.snd heq
    rw [hfst, (mem_clusterItems_key (hsnd ▸ hg2)).2]
  have hkk : key1 = key2 := by rw [← hkey1, ← hkey2, hkey]
  have hmap1 : ((rankedClusters cs).map Prod.fst)[k1]? = some key1 := by
    rw [List.getElem?_map, hk1]
    rfl
  have hmap2 : ((rankedClusters cs).map Prod.fst)[k2]? = some key2 := by
    rw [List.getElem?_map, hk2]
    rfl
  have hlt : k1 < ((rankedClusters cs).map Prod.fst).length := by
    obtain ⟨hlt, -⟩ := List.getElem?_eq_some_iff.mp hmap1
    exact hlt
  have hkeq : k1 = k2 := by
    apply List.getElem?_inj hlt (rankedClusters_fst_nodup cs)
    rw [hmap1, hmap2, hkk]
  constructor
  · omega
  refine ⟨?_, ?_, ?_⟩
  · have : n1 = n2 := by omega
    rw [this]
    unfold mkHeading
    rfl
  · exact (mem_assign_iff hcs).mpr ⟨(c1, n1), h1, rfl⟩
  · exact (mem_assign_iff hcs).mpr ⟨(c2, n2), h2, rfl⟩

/-- Witness for C7: two candidates with the same style but different scores
both sit at rank 1 and receive level H1. -/
theorem claim_C7_witness :
    (1 : Nat) = 1 ∧
      (mkHeading 1 (⟨elemScore5, 5⟩ : Candidate)).level =
        (mkHeading 1 (⟨elemScore5, 6⟩ : Candidate)).level ∧
      mkHeading 1 (⟨elemScore5, 5⟩ : Candidate) ∈
        assign_heading_levels [⟨elemScore5, 5⟩, ⟨elemScore5, 6⟩] ∧
      mkHeading 1 (⟨elemScore5, 6⟩ : Candidate) ∈
        assign_heading_levels [⟨elemScore5, 5⟩, ⟨elemScore5, 6⟩] :=
  claim_C7 [⟨elemScore5, 5⟩, ⟨elemScore5, 6⟩] ⟨elemScore5, 5⟩ ⟨elemScore5, 6⟩ 1 1
    (by simp [levelsOf, levelsFrom, rankedClusters, clusterKeys, dedupFirstAux, clusterItems,
      List.filter, show styleKey (⟨elemScore5, 6⟩ : Candidate) = styleKey ⟨elemScore5, 5⟩ from rfl])
    (by simp [levelsOf, levelsFrom, rankedClusters, clusterKeys, dedupFirstAux, clusterItems,
      List.filter, show styleKey (⟨elemScore5, 6⟩ : Candidate) = styleKey ⟨elemScore5, 5⟩ from rfl])
    rfl rfl rfl rfl rfl

/-- C10: a non-empty candidate list yields a non-empty outline containing a
heading at level H1. -/
theorem claim_C10 (cs : List Candidate) (h : cs ≠ []) :
    assign_heading_levels cs ≠ [] ∧
      ∃ hd ∈ assign_heading_levels cs, hd.level = "H1" := by
  obtain ⟨p0, rest, hranked⟩ := List.exists_cons_of_ne_nil (rankedClusters_ne_nil h)
  obtain ⟨key, hkeymem, hp0⟩ := rankedClusters_mem.mp
    (by rw [hranked]; exact List.mem_cons_self _ _)
  obtain ⟨c0, hc0cs, hc0key⟩ := List.mem_map.mp (clusterKeys_mem.mp hkeymem)
  have hc0in : c0 ∈ clusterItems cs key := List.mem_filter.mpr ⟨hc0cs, by simp [hc0key]⟩
  have hget : (rankedClusters cs)[0]? = some (key, clusterItems cs key) := by
    rw [hranked]
    simp [← hp0]
  have hmem1 := levelsFrom_mem_intro (rankedClusters cs) 1 0 key _ c0 hget hc0in
  have hmem : mkHeading 1 c0 ∈ assign_heading_levels cs :=
    (mem_assign_iff h).mpr ⟨(c0, 1), by simpa using hmem1, rfl⟩
  constructor
  · intro h0
    rw [h0] at hmem
    simp at hmem
  · exact ⟨mkHeading 1 c0, hmem, rfl⟩

/-- Witness for C10: a singleton candidate run emits an H1 heading. -/
theorem claim_C10_witness :
    assign_heading_levels [(⟨elemScore5, 5⟩ : Candidate)] ≠ [] ∧
      ∃ hd ∈ assign_heading_levels [(⟨elemScore5, 5⟩ : Candidate)], hd.level = "H1" :=
  claim_C10 [⟨elemScore5, 5⟩] (by simp)

lemma extract_not_blocked {raw : List RawLine} {e : Element}
    (h : e ∈ extract_text_with_style raw) : is_blocked e.text = false := by
  obtain ⟨l, hl, hfl⟩ := List.mem_filterMap.mp h
  unfold extractLine at hfl
  by_cases hb : is_blocked (pyStrip ((l.spans.map Span.text).flatten)) = true
  · rw [if_pos hb] at hfl
    simp at hfl
  · rw [if_neg hb] at hfl
    have he := Option.some.inj hfl
    rw [← he]
    exact Bool.eq_false_iff.mpr hb

lemma process_headings_sub {es : List Element} {c : Candidate}
    (h : c ∈ process_headings es) : c.elem ∈ es := by
  unfold process_headings at h
  by_cases h1 : es.isEmpty = true
  · rw [if_pos h1] at h
    simp at h
  · rw [if_neg h1] at h
    by_cases h2 : (nonParaSizes es).isEmpty = true
    · rw [if_pos h2] at h
      simp at h
    · rw [if_neg h2] at h
      obtain ⟨a, ha, hfa⟩ := List.mem_filterMap.mp h
      split_ifs at hfa with hp
      simp only [Option.some.injEq, ite_eq_iff] at hfa
      rcases hfa with ⟨-, rfl⟩ | ⟨-, habs⟩
      · exact ha
      · simp at habs

lemma assign_text_sub {cs : List Candidate} {hd : Heading}
    (h : hd ∈ assign_heading_levels cs) : ∃ c ∈ cs, hd.text = c.elem.text := by
  have hcs : cs ≠ [] := by
    rintro rfl
    simp [assign_heading_levels] at h
  obtain ⟨p, hp, rfl⟩ := (mem_assign_iff hcs).mp h
  obtain ⟨c, m⟩ := p
  obtain ⟨k, key, g, hk, hc, -⟩ := levelsFrom_mem_elim _ 1 c m hp
  obtain ⟨key', hk', heq⟩ := rankedClusters_mem.mp (List.getElem?_mem hk)
  have hsnd : g = clusterItems cs key' := congrArg Prod.snd heq
  exact ⟨c, (mem_clusterItems_key (hsnd ▸ hc)).1, rfl⟩

/-- C5: a line whose trimmed text is blocked is dropped at extraction; every
extracted line is non-blocked; every outline entry carries the text of some
non-blocked extracted line; and the title is the stripped space-join of
texts of non-blocked extracted lines. -/
theorem claim_C5 (raw : List RawLine) :
    (∀ l ∈ raw, is_blocked (pyStrip ((l.spans.map Span.text).flatten)) = true →
      extractLine l = none) ∧
    (∀ e ∈ extract_text_with_style raw, is_blocked e.text = false) ∧
    (∀ entry ∈ (extract_document_structure raw).outline,
      ∃ e ∈ extract_text_with_style raw, entry.text = e.text ∧ is_blocked e.text = false) ∧
    (∃ ts : List (List Char),
      (∀ t ∈ ts, ∃ e ∈ extract_text_with_style raw, t = e.text ∧ is_blocked e.text = false) ∧
      (extract_document_structure raw).title = pyStrip (List.intercalate [' '] ts)) := by
  refine ⟨?_, ?_, ?_, ?_⟩
  · intro l _ hb
    unfold extractLine
    rw [if_pos hb]
  · intro e he
    exact extract_not_blocked he
  · intro entry hentry
    have houtline : (extract_document_structure raw).outline =
        (assign_heading_levels (process_headings (extract_text_with_style raw))).map
          (fun h => { level := h.level, text := h.text, page := h.page }) := rfl
    rw [houtline] at hentry
    obtain ⟨hd, hhd, rfl⟩ := List.mem_map.mp hentry
    obtain ⟨c, hccs, htext⟩ := assign_text_sub hhd
    have helem := process_headings_sub hccs
    exact ⟨c.elem, helem, htext, extract_not_blocked helem⟩
  · have htitle : (extract_document_structure raw).title =
        find_title (extract_text_with_style raw) := rfl
    by_cases hfp : (firstPageLines (extract_text_with_style raw)).isEmpty = true
    · refine ⟨[], by simp, ?_⟩
      rw [htitle]
      unfold find_title
      rw [if_pos hfp]
      rfl
    · refine ⟨((titleCandidates (extract_text_with_style raw)).take 3).map Element.text,
        ?_, ?_⟩
      · intro t ht
        obtain ⟨e, he, rfl⟩ := List.mem_map.mp ht
        have he1 := List.take_subset _ _ he
        obtain ⟨hees, hblock⟩ := mem_titleCandidates he1
        exact ⟨e, hees, rfl, hblock⟩
      · rw [htitle]
        unfold find_title
        rw [if_neg hfp]

/-- Witness for C5: the concrete page-number line is dropped at extraction. -/
theorem claim_C5_witness : extractLine pageNumberLine = none :=
  (claim_C5 [pageNumberLine]).1 pageNumberLine (by simp) (by decide)
